import Mathlib

set_option linter.unusedVariables false
set_option maxRecDepth 8000

/-!
Verification of the grouping-and-reconciliation core of a browser tab
organizer.  The definitions below form a shallow embedding of the
program source (App.tsx): the selection model and its toggle
operations, the KeyExtractor (getHostname), the fresh build of group
suggestions (loadTabs), the reconciliation loop against the external
grouping facility (handleOrganizeTabs), and the post-reconciliation
resync build.  The external facility itself (the chrome tabs and
tabGroups API) is not part of the source; its operations are modelled
from the specified call contract as a deterministic state machine in
which an operation fails exactly when a referenced tab or group does
not exist.
-/

/-- A tab as reported by the external tab facility: identifier, title,
address and current group membership, where groupId -1 is the
distinguished value for no group.  JavaScript truthiness of the
optional id, url and title fields is rendered as id not 0 and the
strings nonempty. -/
structure CTab where
  id : Nat
  title : String
  url : String
  groupId : Int
  deriving DecidableEq

/-- A tab entry of the selection model (source type TabSummary). -/
structure TabSummary where
  id : Nat
  title : String
  url : String
  selected : Bool
  deriving DecidableEq

/-- A suggested group (source type GroupSuggestion). -/
structure GroupSuggestion where
  host : String
  tabs : List TabSummary
  groupSelected : Bool
  customName : Option String
  deriving DecidableEq

/-- Modelled from the spec: scheme consumption of the platform URL
parser, which is not part of the source.  Succeeds on a nonempty
scheme followed by a literal colon-slash-slash, returning the
remaining characters; any other shape is a parse failure. -/
def afterScheme (seen : Bool) : List Char → Option (List Char)
  | ':' :: '/' :: '/' :: rest => if seen then some rest else none
  | c :: rest => if c = ':' ∨ c = '/' then none else afterScheme true rest
  | [] => none

/-- A character that terminates the host portion of an address. -/
def hostEnd (c : Char) : Bool := c == '/' || c == ':' || c == '?' || c == '#'

/-- Modelled from the spec: the hostname of an address under the
platform URL parser, which is not part of the source.  Parses a
scheme, then takes the host as the characters up to a path, port,
query or fragment delimiter; an empty host is a parse failure. -/
def parseHostname (url : String) : Option String :=
  match afterScheme false url.toList with
  | none => none
  | some rest =>
    let h := rest.takeWhile (fun c => !(hostEnd c))
    if h.isEmpty then none else some (String.mk h)

/-- Source: the anchored replace of a leading literal www. prefix in
getHostname, which removes exactly one occurrence. -/
def stripWww (h : String) : String :=
  match h.toList with
  | 'w' :: 'w' :: 'w' :: '.' :: rest => String.mk rest
  | _ => h

/-- Source: getHostname.  On parse success the hostname with one
leading www. stripped, on parse failure the sentinel key. -/
def getHostname (url : String) : String :=
  match parseHostname url with
  | some h => stripWww h
  | none => "unknown"

/-- Replace the element at a given position, leaving the list
unchanged when the position is out of range. -/
def updateAt (l : List α) (i : Nat) (f : α → α) : List α :=
  match l, i with
  | [], _ => []
  | x :: xs, 0 => f x :: xs
  | x :: xs, n + 1 => x :: updateAt xs n f

/-- Overwrite the selected flag of a tab entry. -/
def setTabSelected (b : Bool) (t : TabSummary) : TabSummary := { t with selected := b }

/-- Source: toggleGroup.  Flips the group flag and propagates the new
value to every tab of the group. -/
def toggleGroup (gs : List GroupSuggestion) (i : Nat) : List GroupSuggestion :=
  updateAt gs i (fun g =>
    let b := !g.groupSelected
    { g with groupSelected := b, tabs := g.tabs.map (setTabSelected b) })

/-- Source: toggleTab.  Flips one tab and recomputes the group flag as
the AND-reduction over all tabs of the group. -/
def toggleTab (gs : List GroupSuggestion) (i j : Nat) : List GroupSuggestion :=
  updateAt gs i (fun g =>
    let tabs2 := updateAt g.tabs j (fun t => { t with selected := !t.selected })
    { g with tabs := tabs2, groupSelected := tabs2.all (fun t => t.selected) })

/-- Source: hasSelectedTabs. -/
def hasSelectedTabs (gs : List GroupSuggestion) : Bool :=
  gs.any (fun g => g.tabs.any (fun t => t.selected))

/-- The per-group consistency check: the group flag equals the
AND-reduction of the tabs' selected flags. -/
def gsInv (g : GroupSuggestion) : Bool :=
  g.groupSelected == g.tabs.all (fun t => t.selected)

/-- The model-wide consistency invariant. -/
def modelInv (gs : List GroupSuggestion) : Bool := gs.all gsInv

/-- Every group of the model holds at least one tab, as is the case
for every model the program builds. -/
def modelNonempty (gs : List GroupSuggestion) : Bool :=
  gs.all (fun g => !g.tabs.isEmpty)

/-- Whether the first list of characters starts with the second. -/
def startsWithChars (s p : List Char) : Bool :=
  match p, s with
  | [], _ => true
  | _ :: _, [] => false
  | a :: ps, b :: ss => a == b && startsWithChars ss ps

/-- Source: the url filter applied to the facility's tab listing,
excluding internal browser pages and extension pages. -/
def chromeUrlOk (u : String) : Bool :=
  (u != "") && !(startsWithChars u.toList "chrome://".toList) &&
    !(startsWithChars u.toList "chrome-extension://".toList)

/-- Source: the filteredTabs computation. -/
def filterTabs (l : List CTab) : List CTab := l.filter (fun t => chromeUrlOk t.url)

/-- Source: the truthiness guard on id, url and title before a tab is
admitted into a suggestion. -/
def eligibleTab (t : CTab) : Bool := (t.id != 0) && (t.url != "") && (t.title != "")

/-- Source: construction of a TabSummary from a listed tab, selected
by default. -/
def tsOf (t : CTab) : TabSummary :=
  { id := t.id, title := t.title, url := t.url, selected := true }

/-- Insertion-ordered association update mirroring the JavaScript Map:
a new key is appended at the end, an existing key has the value
appended to its list. -/
def insertTab (m : List (String × List TabSummary)) (k : String) (t : TabSummary) :
    List (String × List TabSummary) :=
  match m with
  | [] => [(k, [t])]
  | e :: rest => if e.1 = k then (e.1, e.2 ++ [t]) :: rest else e :: insertTab rest k t

/-- Source: the hostMap fold of loadTabs over the filtered listing. -/
def hostAssoc (l : List CTab) : List (String × List TabSummary) :=
  l.foldl (fun acc t =>
    if eligibleTab t then insertTab acc (getHostname t.url) (tsOf t) else acc) []

/-- Source: loadTabs fresh build, producing the initial selection
model from the facility's tab listing. -/
def loadTabs (input : List CTab) : List GroupSuggestion :=
  (hostAssoc (filterTabs input)).map
    (fun e => { host := e.1, tabs := e.2, groupSelected := true, customName := none })

/-- First value stored under a key in an association list, or the
empty list when the key is absent. -/
def findVal (m : List (String × List TabSummary)) (k : String) : List TabSummary :=
  match m with
  | [] => []
  | e :: rest => if e.1 = k then e.2 else findVal rest k

/-- The keys of an association list in order. -/
def keysOf (m : List (String × List TabSummary)) : List String := m.map (fun e => e.1)

/-- The hostMap fold over an already filtered listing, presented as a
fold over key-record pairs. -/
def insFold (acc : List (String × List TabSummary)) (ps : List (String × TabSummary)) :
    List (String × List TabSummary) :=
  ps.foldl (fun a p => insertTab a p.1 p.2) acc

/-- Spec words: keys in first-seen order. -/
def firstSeenFrom (acc : List String) (ks : List String) : List String :=
  ks.foldl (fun a k => if k ∈ a then a else a ++ [k]) acc

/-- Spec words: the key and record of every tab admitted into the
fresh build, in listing order. -/
def eligiblePairs (l : List CTab) : List (String × TabSummary) :=
  ((filterTabs l).filter eligibleTab).map (fun t => (getHostname t.url, tsOf t))

/-- Spec words: the grouping keys of the fresh build, first-seen
order. -/
def specKeys (l : List CTab) : List String :=
  firstSeenFrom [] ((eligiblePairs l).map (fun p => p.1))

/-- Spec words: all admitted tabs carrying a given key, in listing
order. -/
def specTabsFor (l : List CTab) (k : String) : List TabSummary :=
  ((eligiblePairs l).filter (fun p => p.1 == k)).map (fun p => p.2)

/-- Spec words: the fresh build as the spec describes it, one
suggestion per first-seen key, holding every admitted tab of that key
in order, fully selected. -/
def specFreshBuild (l : List CTab) : List GroupSuggestion :=
  (specKeys l).map
    (fun k => { host := k, tabs := specTabsFor l k, groupSelected := true, customName := none })

/-- Display attributes of an external group. -/
structure GroupAttrs where
  title : String
  color : String
  collapsed : Bool
  deriving DecidableEq

/-- Modelled from the spec: the live state of the external grouping
facility (not part of the source), holding the open tabs with their
group membership, the existing groups with their attributes, and the
next fresh group identifier. -/
structure ChromeState where
  tabs : List CTab
  groups : List (Int × GroupAttrs)
  nextGid : Int
  deriving DecidableEq

/-- A mutation issued to the external facility, recorded in the order
the reconciliation loop issues it. -/
inductive EOp where
  | ungroup (tid : Nat)
  | create (tids : List Nat) (gid : Int)
  | add (gid : Int) (tids : List Nat)
  | update (gid : Int) (title : String) (collapsed : Bool)
  deriving DecidableEq

/-- Whether a recorded mutation is an ungroup of a single tab. -/
def isUngroupOp : EOp → Bool
  | EOp.ungroup _ => true
  | _ => false

/-- Modelled from the spec: the facility's tab lookup, failing with
NotFound exactly when no open tab has the identifier. -/
def tabsGet (st : ChromeState) (tid : Nat) : Option CTab :=
  st.tabs.find? (fun t => t.id == tid)

/-- Overwrite a tab's group membership. -/
def setTabGroup (gid : Int) (t : CTab) : CTab := { t with groupId := gid }

/-- Modelled from the spec: the facility's single-tab ungroup, failing
with NotFound when the tab no longer exists. -/
def tabsUngroup (st : ChromeState) (tid : Nat) : Option ChromeState :=
  match tabsGet st tid with
  | none => none
  | some _ => some { st with
      tabs := st.tabs.map (fun t => if t.id == tid then setTabGroup (-1) t else t) }

/-- Modelled from the spec: the facility's group lookup, failing with
NotFound when the group no longer exists. -/
def groupsGet (st : ChromeState) (gid : Int) : Option GroupAttrs :=
  (st.groups.find? (fun e => e.1 == gid)).map (fun e => e.2)

/-- Modelled from the spec: the facility's query for the tabs of a
group. -/
def tabsQueryGroup (st : ChromeState) (gid : Int) : List CTab :=
  st.tabs.filter (fun t => t.groupId == gid)

/-- Modelled from the spec: adding tabs to an existing group, failing
with NotFound when the group or any referenced tab no longer
exists. -/
def tabsAddToGroup (st : ChromeState) (gid : Int) (tids : List Nat) : Option ChromeState :=
  if tids.all (fun i => (tabsGet st i).isSome) && (groupsGet st gid).isSome then
    some { st with
      tabs := st.tabs.map (fun t => if tids.contains t.id then setTabGroup gid t else t) }
  else none

/-- Modelled from the spec: creating a group over a nonempty set of
tabs, with the collapsed attribute defaulting to false; fails when a
referenced tab no longer exists. -/
def tabsCreateGroup (st : ChromeState) (tids : List Nat) : Option (Int × ChromeState) :=
  if !tids.isEmpty && tids.all (fun i => (tabsGet st i).isSome) then
    some (st.nextGid,
      { tabs := st.tabs.map (fun t => if tids.contains t.id then setTabGroup st.nextGid t else t),
        groups := st.groups ++ [(st.nextGid, { title := "", color := "", collapsed := false })],
        nextGid := st.nextGid + 1 })
  else none

/-- Modelled from the spec: updating a group's title, color and
collapsed attributes, failing with NotFound when the group no longer
exists. -/
def groupsUpdate (st : ChromeState) (gid : Int) (a : GroupAttrs) : Option ChromeState :=
  if (groupsGet st gid).isSome then
    some { st with groups := st.groups.map (fun e => if e.1 == gid then (e.1, a) else e) }
  else none

/-- Source: the selected tab ids of a suggestion, in order. -/
def selectedIdsOf (g : GroupSuggestion) : List Nat :=
  (g.tabs.filter (fun t => t.selected)).map (fun t => t.id)

/-- Source: the unselected tab ids of a suggestion, in order. -/
def unselectedIdsOf (g : GroupSuggestion) : List Nat :=
  (g.tabs.filter (fun t => !t.selected)).map (fun t => t.id)

/-- Source: one step of the ungroup loop over unselected tab ids; a
lookup or ungroup failure is caught and the tab skipped. -/
def ungroupOne (acc : ChromeState × List EOp) (tid : Nat) : ChromeState × List EOp :=
  match tabsGet acc.1 tid with
  | none => acc
  | some tab =>
    if tab.groupId == -1 then acc
    else
      match tabsUngroup acc.1 tid with
      | some st2 => (st2, acc.2 ++ [EOp.ungroup tid])
      | none => acc

/-- Source: the ungroup loop over the unselected tab ids of one
suggestion. -/
def ungroupPhase (st : ChromeState) (tids : List Nat) : ChromeState × List EOp :=
  tids.foldl ungroupOne (st, [])

/-- Source: the scan over selected tab ids for the first one already
in an external group; a failed tab lookup is caught and the id
skipped, and a failed group lookup is caught with the candidate group
identifier already recorded and the scan continuing. -/
def findExisting (st : ChromeState) : List Nat → Option Int → Bool → Option Int × Bool
  | [], acc, col => (acc, col)
  | tid :: rest, acc, col =>
    match tabsGet st tid with
    | none => findExisting st rest acc col
    | some tab =>
      if tab.groupId == -1 then findExisting st rest acc col
      else
        match groupsGet st tab.groupId with
        | some gi => (some tab.groupId, gi.collapsed)
        | none => findExisting st rest (some tab.groupId) col

/-- Source: the title passed to the group update, the custom name when
truthy and the suggestion's key otherwise. -/
def groupTitle (g : GroupSuggestion) : String :=
  match g.customName with
  | some s => if s = "" then g.host else s
  | none => g.host

/-- Source: the body of the per-suggestion reconciliation loop of
handleOrganizeTabs.  Failures of the operations outside the per-item
try scopes (adding, creating, updating) propagate as errors carrying
the facility state at failure. -/
def reconcileOne (st : ChromeState) (g : GroupSuggestion) :
    Except ChromeState (ChromeState × List EOp) :=
  let selectedIds := selectedIdsOf g
  let p1 := ungroupPhase st (unselectedIdsOf g)
  if selectedIds.isEmpty then Except.ok p1
  else
    match findExisting p1.1 selectedIds none false with
    | (some gid, wasCollapsed) =>
      let current := (tabsQueryGroup p1.1 gid).map (fun t => t.id)
      let toAdd := selectedIds.filter (fun i => !(current.contains i))
      if toAdd.isEmpty then
        match groupsUpdate p1.1 gid
            { title := groupTitle g, color := "grey", collapsed := wasCollapsed } with
        | some st3 => Except.ok (st3, p1.2 ++ [EOp.update gid (groupTitle g) wasCollapsed])
        | none => Except.error p1.1
      else
        match tabsAddToGroup p1.1 gid toAdd with
        | none => Except.error p1.1
        | some st2 =>
          match groupsUpdate st2 gid
              { title := groupTitle g, color := "grey", collapsed := wasCollapsed } with
          | some st3 =>
            Except.ok (st3, p1.2 ++ [EOp.add gid toAdd, EOp.update gid (groupTitle g) wasCollapsed])
          | none => Except.error st2
    | (none, wasCollapsed) =>
      match tabsCreateGroup p1.1 selectedIds with
      | none => Except.error p1.1
      | some (gid, st2) =>
        match groupsUpdate st2 gid
            { title := groupTitle g, color := "grey", collapsed := wasCollapsed } with
        | some st3 =>
          Except.ok (st3, p1.2 ++ [EOp.create selectedIds gid, EOp.update gid (groupTitle g) wasCollapsed])
        | none => Except.error st2

/-- Source: the reconciliation loop over all suggestions in model
order. -/
def reconcileAll (st : ChromeState) : List GroupSuggestion → Except ChromeState (ChromeState × List EOp)
  | [] => Except.ok (st, [])
  | g :: rest =>
    match reconcileOne st g with
    | Except.error e => Except.error e
    | Except.ok (st1, ops1) =>
      match reconcileAll st1 rest with
      | Except.error e => Except.error e
      | Except.ok (st2, ops2) => Except.ok (st2, ops1 ++ ops2)

/-- Insertion-ordered association update for the resync groupMap keyed
by external group identifier; the display name is fixed at first
encounter. -/
def insertGrouped (m : List (Int × String × List TabSummary)) (gid : Int) (name : String)
    (t : TabSummary) : List (Int × String × List TabSummary) :=
  match m with
  | [] => [(gid, name, [t])]
  | e :: rest =>
    if e.1 == gid then (e.1, e.2.1, e.2.2 ++ [t]) :: rest else e :: insertGrouped rest gid name t

/-- Source: one step of the resync loop, splitting tabs into the
groupMap (grouped tabs, name from the external title when truthy, the
hostname otherwise, also on a failed group lookup) and the hostMap
(ungrouped tabs keyed by hostname). -/
def resyncStep (st : ChromeState)
    (acc : List (Int × String × List TabSummary) × List (String × List TabSummary))
    (t : CTab) : List (Int × String × List TabSummary) × List (String × List TabSummary) :=
  if eligibleTab t then
    if !(t.groupId == -1) then
      let name :=
        match groupsGet st t.groupId with
        | some gi => if gi.title = "" then getHostname t.url else gi.title
        | none => getHostname t.url
      (insertGrouped acc.1 t.groupId name (tsOf t), acc.2)
    else
      (acc.1, insertTab acc.2 (getHostname t.url) (tsOf t))
  else acc

/-- Source: the resync rebuild of the selection model from the
facility's live state after organizing, group-derived suggestions
before hostname-derived ones, everything selected. -/
def resyncBuild (st : ChromeState) : List GroupSuggestion :=
  let acc := (filterTabs st.tabs).foldl (resyncStep st) ([], [])
  acc.1.map (fun e =>
      { host := e.2.1, tabs := e.2.2, groupSelected := true, customName := some e.2.1 }) ++
    acc.2.map (fun e =>
      { host := e.1, tabs := e.2, groupSelected := true, customName := none })

/-- Source: handleOrganizeTabs at the level of the popup state.  On a
successful run the model is replaced by the resync build of the final
facility state and the organized flag set; on a fatal failure the
model is left untouched. -/
def handleOrganizeTabs (st : ChromeState) (model : List GroupSuggestion) :
    ChromeState × List GroupSuggestion × Bool :=
  match reconcileAll st model with
  | Except.ok (st2, _) => (st2, resyncBuild st2, true)
  | Except.error stE => (stE, model, false)

theorem mem_updateAt {l : List α} {i : Nat} {f : α → α} {a : α}
    (h : a ∈ updateAt l i f) : a ∈ l ∨ ∃ b, b ∈ l ∧ a = f b := by
  induction l generalizing i with
  | nil => simp [updateAt] at h
  | cons x xs ih =>
    cases i with
    | zero =>
      simp only [updateAt, List.mem_cons] at h
      rcases h with h | h
      · exact Or.inr ⟨x, by simp, h⟩
      · exact Or.inl (by simp [h])
    | succ n =>
      simp only [updateAt, List.mem_cons] at h
      rcases h with h | h
      · exact Or.inl (by simp [h])
      · rcases ih h with h2 | ⟨b, hb, rfl⟩
        · exact Or.inl (by simp [h2])
        · exact Or.inr ⟨b, by simp [hb], rfl⟩

theorem updateAt_updateAt (l : List α) (i : Nat) (f g : α → α) :
    updateAt (updateAt l i f) i g = updateAt l i (fun a => g (f a)) := by
  induction l generalizing i with
  | nil => rfl
  | cons x xs ih =>
    cases i with
    | zero => rfl
    | succ n => simp only [updateAt, List.cons.injEq, true_and]; exact ih n

theorem updateAt_eq_self (l : List α) (i : Nat) (f : α → α) (hi : i < l.length)
    (h : f (l.get ⟨i, hi⟩) = l.get ⟨i, hi⟩) : updateAt l i f = l := by
  induction l generalizing i with
  | nil => rfl
  | cons x xs ih =>
    cases i with
    | zero => simpa [updateAt] using h
    | succ n =>
      simp only [updateAt, List.cons.injEq, true_and]
      exact ih n (Nat.lt_of_succ_lt_succ hi) h

theorem updateAt_congr (l : List α) (i : Nat) (f g : α → α)
    (h : ∀ a ∈ l, f a = g a) : updateAt l i f = updateAt l i g := by
  induction l generalizing i with
  | nil => rfl
  | cons x xs ih =>
    cases i with
    | zero => simp [updateAt, h x (by simp)]
    | succ n =>
      simp only [updateAt, List.cons.injEq, true_and]
      exact ih n (fun a ha => h a (by simp [ha]))

theorem updateAt_id_fun (l : List α) (i : Nat) : updateAt l i (fun a => a) = l := by
  induction l generalizing i with
  | nil => rfl
  | cons x xs ih =>
    cases i with
    | zero => rfl
    | succ n => simp only [updateAt, List.cons.injEq, true_and]; exact ih n

theorem all_const (l : List α) (b : Bool) (h : l ≠ []) : l.all (fun _ => b) = b := by
  cases l with
  | nil => exact absurd rfl h
  | cons x xs => cases b <;> simp

theorem map_id_of (l : List α) (f : α → α) (h : ∀ a ∈ l, f a = a) : l.map f = l := by
  induction l with
  | nil => rfl
  | cons x xs ih =>
    simp only [List.map_cons, List.cons.injEq]
    exact ⟨h x (by simp), ih (fun a ha => h a (by simp [ha]))⟩

theorem setTabSelected_self (t : TabSummary) : setTabSelected t.selected t = t := by
  cases t; rfl

theorem insertTab_sel {m : List (String × List TabSummary)} {k : String} {t : TabSummary}
    (hm : ∀ e ∈ m, ∀ u ∈ e.2, u.selected = true) (ht : t.selected = true) :
    ∀ e ∈ insertTab m k t, ∀ u ∈ e.2, u.selected = true := by
  induction m with
  | nil =>
    intro e he u hu
    simp only [insertTab, List.mem_singleton] at he
    subst he
    simp only [List.mem_singleton] at hu
    subst hu
    exact ht
  | cons x xs ih =>
    intro e he u hu
    simp only [insertTab] at he
    by_cases hk : x.1 = k
    · simp only [if_pos hk, List.mem_cons] at he
      rcases he with he | he
      · subst he
        simp only [List.mem_append, List.mem_singleton] at hu
        rcases hu with hu | hu
        · exact hm x (by simp) u hu
        · subst hu; exact ht
      · exact hm e (by simp [he]) u hu
    · simp only [if_neg hk, List.mem_cons] at he
      rcases he with he | he
      · subst he; exact hm e (by simp) u hu
      · exact ih (fun a ha => hm a (by simp [ha])) e he u hu

theorem hostAssocGo_sel (l : List CTab) :
    ∀ acc, (∀ e ∈ acc, ∀ u ∈ e.2, u.selected = true) →
    ∀ e ∈ l.foldl (fun acc t =>
        if eligibleTab t then insertTab acc (getHostname t.url) (tsOf t) else acc) acc,
      ∀ u ∈ e.2, u.selected = true := by
  induction l with
  | nil => intro acc hacc; simpa using hacc
  | cons t l ih =>
    intro acc hacc
    rw [List.foldl_cons]
    apply ih
    by_cases he : eligibleTab t
    · simp only [if_pos he]
      exact insertTab_sel hacc rfl
    · simpa [if_neg he] using hacc

theorem hostAssoc_sel (l : List CTab) :
    ∀ e ∈ hostAssoc l, ∀ u ∈ e.2, u.selected = true :=
  hostAssocGo_sel l [] (by simp)

theorem insertTab_ne {m : List (String × List TabSummary)} {k : String} {t : TabSummary}
    (hm : ∀ e ∈ m, e.2 ≠ []) : ∀ e ∈ insertTab m k t, e.2 ≠ [] := by
  induction m with
  | nil =>
    intro e he
    simp only [insertTab, List.mem_singleton] at he
    subst he
    simp
  | cons x xs ih =>
    intro e he
    simp only [insertTab] at he
    by_cases hk : x.1 = k
    · simp only [if_pos hk, List.mem_cons] at he
      rcases he with he | he
      · subst he; simp
      · exact hm e (by simp [he])
    · simp only [if_neg hk, List.mem_cons] at he
      rcases he with he | he
      · subst he; exact hm e (by simp)
      · exact ih (fun a ha => hm a (by simp [ha])) e he

theorem hostAssocGo_ne (l : List CTab) :
    ∀ acc, (∀ e ∈ acc, e.2 ≠ []) →
    ∀ e ∈ l.foldl (fun acc t =>
        if eligibleTab t then insertTab acc (getHostname t.url) (tsOf t) else acc) acc,
      e.2 ≠ [] := by
  induction l with
  | nil => intro acc hacc; simpa using hacc
  | cons t l ih =>
    intro acc hacc
    rw [List.foldl_cons]
    apply ih
    by_cases he : eligibleTab t
    · simp only [if_pos he]
      exact insertTab_ne hacc
    · simpa [if_neg he] using hacc

theorem hostAssoc_ne (l : List CTab) : ∀ e ∈ hostAssoc l, e.2 ≠ [] :=
  hostAssocGo_ne l [] (by simp)

theorem updateAt_ne {l : List α} (h : l ≠ []) (i : Nat) (f : α → α) : updateAt l i f ≠ [] := by
  cases l with
  | nil => exact absurd rfl h
  | cons x xs => cases i <;> simp [updateAt]

/-- C1: after any in-range toggleGroup or toggleTab call on a selection
model satisfying the program's own invariants (groupSelected equals
the AND-reduction of its tabs' selected flags, and each group holds at
least one tab), the groupSelected flag of every GroupSuggestion again
equals the AND-reduction of the selected flags of that group's tabs.
The fresh build establishes both invariants for every input and both
toggles preserve both, so they hold in every state the program can
reach. -/
theorem C1_groupSelected_and_invariant (input : List CTab) (gs : List GroupSuggestion)
    (hinv : modelInv gs = true) (hne : modelNonempty gs = true) (i j : Nat)
    (hi : i < gs.length) (hj : j < (gs.get ⟨i, hi⟩).tabs.length) :
    (modelInv (loadTabs input) = true ∧ modelNonempty (loadTabs input) = true) ∧
    (modelInv (toggleGroup gs i) = true ∧ modelNonempty (toggleGroup gs i) = true) ∧
    (modelInv (toggleTab gs i j) = true ∧ modelNonempty (toggleTab gs i j) = true) := by
  unfold modelInv at hinv
  rw [List.all_eq_true] at hinv
  unfold modelNonempty at hne
  rw [List.all_eq_true] at hne
  refine ⟨⟨?_, ?_⟩, ⟨?_, ?_⟩, ⟨?_, ?_⟩⟩
  · unfold modelInv loadTabs
    rw [List.all_eq_true]
    intro g hg
    rw [List.mem_map] at hg
    obtain ⟨e, he, rfl⟩ := hg
    have hsel := hostAssoc_sel (filterTabs input) e he
    have : e.2.all (fun t => t.selected) = true := List.all_eq_true.mpr hsel
    simp [gsInv, this]
  · unfold modelNonempty loadTabs
    rw [List.all_eq_true]
    intro g hg
    rw [List.mem_map] at hg
    obtain ⟨e, he, rfl⟩ := hg
    have := hostAssoc_ne (filterTabs input) e he
    simpa [List.isEmpty_iff] using this
  · unfold modelInv toggleGroup
    rw [List.all_eq_true]
    intro g hg
    rcases mem_updateAt hg with hmem | ⟨b, hb, rfl⟩
    · exact hinv g hmem
    · have hbne : b.tabs ≠ [] := by
        have := hne b hb
        simpa using this
      simp only [gsInv, List.all_map]
      have hcomp : ((fun t : TabSummary => t.selected) ∘ setTabSelected (!b.groupSelected)) =
          (fun _ : TabSummary => !b.groupSelected) := rfl
      rw [hcomp, all_const b.tabs (!b.groupSelected) hbne]
      simp
  · unfold modelNonempty toggleGroup
    rw [List.all_eq_true]
    intro g hg
    rcases mem_updateAt hg with hmem | ⟨b, hb, rfl⟩
    · exact hne g hmem
    · have hbne : b.tabs ≠ [] := by
        have := hne b hb
        simpa using this
      simpa [List.isEmpty_iff] using hbne
  · unfold modelInv toggleTab
    rw [List.all_eq_true]
    intro g hg
    rcases mem_updateAt hg with hmem | ⟨b, hb, rfl⟩
    · exact hinv g hmem
    · simp [gsInv]
  · unfold modelNonempty toggleTab
    rw [List.all_eq_true]
    intro g hg
    rcases mem_updateAt hg with hmem | ⟨b, hb, rfl⟩
    · exact hne g hmem
    · have hbne : b.tabs ≠ [] := by
        have := hne b hb
        simpa using this
      simpa [List.isEmpty_iff] using updateAt_ne hbne j (fun t => { t with selected := !t.selected })

/-- Witness for C1 at a concrete two-tab model. -/
theorem C1_groupSelected_and_invariant_witness :
    (modelInv (loadTabs []) = true ∧ modelNonempty (loadTabs []) = true) ∧
    (modelInv (toggleGroup
      [GroupSuggestion.mk "a.com"
        [TabSummary.mk 1 "t1" "u1" true, TabSummary.mk 2 "t2" "u2" true] true none] 0) = true ∧
     modelNonempty (toggleGroup
      [GroupSuggestion.mk "a.com"
        [TabSummary.mk 1 "t1" "u1" true, TabSummary.mk 2 "t2" "u2" true] true none] 0) = true) ∧
    (modelInv (toggleTab
      [GroupSuggestion.mk "a.com"
        [TabSummary.mk 1 "t1" "u1" true, TabSummary.mk 2 "t2" "u2" true] true none] 0 0) = true ∧
     modelNonempty (toggleTab
      [GroupSuggestion.mk "a.com"
        [TabSummary.mk 1 "t1" "u1" true, TabSummary.mk 2 "t2" "u2" true] true none] 0 0) = true) :=
  C1_groupSelected_and_invariant []
    [GroupSuggestion.mk "a.com"
      [TabSummary.mk 1 "t1" "u1" true, TabSummary.mk 2 "t2" "u2" true] true none]
    (by decide) (by decide) 0 0 (by decide) (by decide)

/-- Counterexample to C2 as stated: on a reachable model holding one
group with a mixed selection (first tab selected, second not, group
flag false), toggling the group twice does not restore the tabs; both
end deselected. -/
theorem C2_counterexample :
    toggleGroup (toggleGroup
      [GroupSuggestion.mk "a.com"
        [TabSummary.mk 1 "t1" "u1" true, TabSummary.mk 2 "t2" "u2" false] false none] 0) 0 ≠
    [GroupSuggestion.mk "a.com"
      [TabSummary.mk 1 "t1" "u1" true, TabSummary.mk 2 "t2" "u2" false] false none] := by
  decide

/-- C2 amended: toggleGroup applied twice restores the prior selected
state of every tab in group i provided every tab of that group had
selected equal to the group's groupSelected flag beforehand (in
general the double toggle overwrites each tab's flag with the prior
group flag, so a mixed selection is not restored). -/
theorem C2_toggleGroup_involution_on_uniform (gs : List GroupSuggestion) (i : Nat)
    (hi : i < gs.length)
    (huni : ∀ t ∈ (gs.get ⟨i, hi⟩).tabs, t.selected = (gs.get ⟨i, hi⟩).groupSelected) :
    toggleGroup (toggleGroup gs i) i = gs := by
  unfold toggleGroup
  rw [updateAt_updateAt]
  apply updateAt_eq_self _ _ _ hi
  revert huni
  generalize (gs.get ⟨i, hi⟩) = g
  intro huni
  obtain ⟨h0, t0, b0, c0⟩ := g
  simp only [GroupSuggestion.mk.injEq, Bool.not_not, List.map_map, and_true, true_and]
  have hset : ∀ t ∈ t0, ((setTabSelected b0 ∘ setTabSelected (!b0)) t) = t := by
    intro t ht
    have hts : t.selected = b0 := huni t ht
    calc (setTabSelected b0 ∘ setTabSelected (!b0)) t = setTabSelected b0 t := rfl
    _ = setTabSelected t.selected t := by rw [hts]
    _ = t := setTabSelected_self t
  exact map_id_of t0 _ hset

/-- Witness for the amended C2 at a concrete uniformly selected
model. -/
theorem C2_toggleGroup_involution_on_uniform_witness :
    toggleGroup (toggleGroup
      [GroupSuggestion.mk "a.com" [TabSummary.mk 1 "t1" "u1" true] true none] 0) 0 =
    [GroupSuggestion.mk "a.com" [TabSummary.mk 1 "t1" "u1" true] true none] :=
  C2_toggleGroup_involution_on_uniform
    [GroupSuggestion.mk "a.com" [TabSummary.mk 1 "t1" "u1" true] true none] 0
    (by decide) (by decide)

/-- C10: on a model satisfying the groupSelected-equals-AND invariant,
toggling one tab twice restores the model exactly: the toggled tab,
every other tab and the group flag return to their prior values. -/
theorem C10_toggleTab_involution (gs : List GroupSuggestion)
    (hinv : modelInv gs = true) (i j : Nat) (hi : i < gs.length)
    (hj : j < (gs.get ⟨i, hi⟩).tabs.length) :
    toggleTab (toggleTab gs i j) i j = gs := by
  unfold toggleTab
  rw [updateAt_updateAt]
  apply updateAt_eq_self _ _ _ hi
  have hmem : gs.get ⟨i, hi⟩ ∈ gs := gs.get_mem _ _
  have hginv : gsInv (gs.get ⟨i, hi⟩) = true := by
    unfold modelInv at hinv
    exact List.all_eq_true.mp hinv _ hmem
  revert hginv
  generalize (gs.get ⟨i, hi⟩) = g
  intro hginv
  obtain ⟨h0, t0, b0, c0⟩ := g
  simp only [gsInv] at hginv
  have hb0 : b0 = t0.all (fun t => t.selected) := by simpa using hginv
  simp only [updateAt_updateAt, GroupSuggestion.mk.injEq, and_true, true_and]
  have hflip : updateAt t0 j
      (fun t => { ({ t with selected := !t.selected } : TabSummary) with
        selected := !(!t.selected) }) = t0 := by
    rw [updateAt_congr t0 j _ (fun t => t) (by intro t ht; cases t; simp), updateAt_id_fun]
  constructor
  · exact hflip
  · rw [hflip, hb0]

/-- Witness for C10 at a concrete mixed model. -/
theorem C10_toggleTab_involution_witness :
    toggleTab (toggleTab
      [GroupSuggestion.mk "a.com"
        [TabSummary.mk 1 "t1" "u1" true, TabSummary.mk 2 "t2" "u2" false] false none] 0 1) 0 1 =
    [GroupSuggestion.mk "a.com"
      [TabSummary.mk 1 "t1" "u1" true, TabSummary.mk 2 "t2" "u2" false] false none] :=
  C10_toggleTab_involution
    [GroupSuggestion.mk "a.com"
      [TabSummary.mk 1 "t1" "u1" true, TabSummary.mk 2 "t2" "u2" false] false none]
    (by decide) 0 1 (by decide) (by decide)

/-- C3: the key extraction is total and returns the parsed hostname
with exactly one leading literal www. prefix stripped, the sentinel
key on any parse failure, and the expected keys on the spec's
examples. -/
theorem C3_getHostname_total_strip :
    (∀ url h, parseHostname url = some h → getHostname url = stripWww h) ∧
    (∀ url, parseHostname url = none → getHostname url = "unknown") ∧
    getHostname "https://www.example.com/x" = "example.com" ∧
    getHostname "https://shop.example.com" = "shop.example.com" ∧
    getHostname "https://www.www.example.com/x" = "www.example.com" ∧
    getHostname "" = "unknown" ∧
    getHostname "not a url" = "unknown" := by
  refine ⟨?_, ?_, by decide, by decide, by decide, by decide, by decide⟩
  · intro url h hp
    unfold getHostname
    rw [hp]
  · intro url hp
    unfold getHostname
    rw [hp]

/-- Witness for C3 at the spec's first example. -/
theorem C3_getHostname_total_strip_witness :
    parseHostname "https://www.example.com/x" = some "www.example.com" ∧
    getHostname "https://www.example.com/x" = stripWww "www.example.com" ∧
    parseHostname "nohost" = none ∧
    getHostname "nohost" = "unknown" :=
  ⟨by decide,
   C3_getHostname_total_strip.1 "https://www.example.com/x" "www.example.com" (by decide),
   by decide,
   C3_getHostname_total_strip.2.1 "nohost" (by decide)⟩

theorem keysOf_insertTab (m : List (String × List TabSummary)) (k : String) (t : TabSummary) :
    keysOf (insertTab m k t) =
      if k ∈ keysOf m then keysOf m else keysOf m ++ [k] := by
  induction m with
  | nil => simp [insertTab, keysOf]
  | cons e rest ih =>
    simp only [keysOf] at ih ⊢
    by_cases hk : e.1 = k
    · subst hk
      simp [insertTab]
    · have hne : k ≠ e.1 := fun h => hk h.symm
      simp only [insertTab, if_neg hk, List.map_cons, List.mem_cons, hne, false_or]
      rw [ih]
      by_cases hm : k ∈ List.map (fun e => e.1) rest
      · simp [hm]
      · simp [hm]

theorem findVal_insertTab (m : List (String × List TabSummary)) (k q : String) (t : TabSummary) :
    findVal (insertTab m k t) q =
      if q = k then findVal m q ++ [t] else findVal m q := by
  induction m with
  | nil =>
    by_cases hq : q = k
    · subst hq; simp [insertTab, findVal]
    · have hne : ¬ k = q := fun h => hq h.symm
      simp [insertTab, findVal, hq, hne]
  | cons e rest ih =>
    by_cases hek : e.1 = k
    · subst hek
      by_cases hq : e.1 = q
      · subst hq
        simp [insertTab, findVal]
      · have hqe : ¬ q = e.1 := fun h => hq h.symm
        simp [insertTab, findVal, hq, hqe]
    · by_cases hq : e.1 = q
      · have hqk : ¬ q = k := fun h => hek (hq.trans h)
        simp [insertTab, if_neg hek, findVal, hq, hqk]
      · simp [insertTab, if_neg hek, findVal, hq, ih]

theorem firstSeenFrom_nil (acc : List String) : firstSeenFrom acc [] = acc := rfl

theorem firstSeenFrom_cons (acc : List String) (k : String) (ks : List String) :
    firstSeenFrom acc (k :: ks) =
      firstSeenFrom (if k ∈ acc then acc else acc ++ [k]) ks := rfl

theorem keysOf_insFold (ps : List (String × TabSummary)) :
    ∀ acc, keysOf (insFold acc ps) = firstSeenFrom (keysOf acc) (ps.map (fun p => p.1)) := by
  induction ps with
  | nil => intro acc; rfl
  | cons p ps ih =>
    intro acc
    show keysOf (insFold (insertTab acc p.1 p.2) ps) = _
    rw [ih, List.map_cons, firstSeenFrom_cons, keysOf_insertTab]

theorem findVal_insFold (ps : List (String × TabSummary)) :
    ∀ acc q, findVal (insFold acc ps) q =
      findVal acc q ++ (ps.filter (fun p => p.1 == q)).map (fun p => p.2) := by
  induction ps with
  | nil => intro acc q; simp [insFold]
  | cons p ps ih =>
    intro acc q
    show findVal (insFold (insertTab acc p.1 p.2) ps) q = _
    rw [ih, findVal_insertTab]
    by_cases hq : q = p.1
    · subst hq
      simp [List.filter_cons]
    · have : ¬ (p.1 == q) = true := by simp; intro h; exact absurd h.symm hq
      simp [List.filter_cons, hq, this]

theorem nodup_firstSeenFrom (ks : List String) :
    ∀ acc, acc.Nodup → (firstSeenFrom acc ks).Nodup := by
  induction ks with
  | nil => intro acc h; exact h
  | cons k ks ih =>
    intro acc h
    rw [firstSeenFrom_cons]
    apply ih
    by_cases hk : k ∈ acc
    · simpa [hk] using h
    · simp only [if_neg hk]
      simp [List.nodup_append, h, hk]

theorem map_congr_mem (l : List α) (f g : α → β) (h : ∀ a ∈ l, f a = g a) :
    l.map f = l.map g := by
  induction l with
  | nil => rfl
  | cons x xs ih =>
    simp only [List.map_cons, List.cons.injEq]
    exact ⟨h x (by simp), ih (fun a ha => h a (by simp [ha]))⟩

theorem assoc_canonical (m : List (String × List TabSummary)) (h : (keysOf m).Nodup) :
    m = (keysOf m).map (fun k => (k, findVal m k)) := by
  induction m with
  | nil => rfl
  | cons e rest ih =>
    simp only [keysOf, List.map_cons] at h ⊢
    have hnotin : e.1 ∉ rest.map (fun x => x.1) := (List.nodup_cons.mp h).1
    have hrest : (rest.map (fun x => x.1)).Nodup := (List.nodup_cons.mp h).2
    have hhead : findVal (e :: rest) e.1 = e.2 := by simp [findVal]
    rw [hhead]
    have htail : (rest.map (fun x => x.1)).map (fun k => (k, findVal (e :: rest) k)) =
        (rest.map (fun x => x.1)).map (fun k => (k, findVal rest k)) := by
      apply map_congr_mem
      intro k hk
      have hne : ¬ e.1 = k := by
        intro hek
        exact hnotin (hek ▸ hk)
      simp [findVal, hne]
    rw [htail, ← show (keysOf rest = rest.map (fun x => x.1)) from rfl, ← ih hrest]

theorem hostAssoc_eq_insFold (l : List CTab) :
    hostAssoc l = insFold [] ((l.filter eligibleTab).map (fun t => (getHostname t.url, tsOf t))) := by
  suffices h : ∀ acc, l.foldl (fun acc t =>
      if eligibleTab t then insertTab acc (getHostname t.url) (tsOf t) else acc) acc =
      insFold acc ((l.filter eligibleTab).map (fun t => (getHostname t.url, tsOf t))) from h []
  induction l with
  | nil => intro acc; rfl
  | cons t l ih =>
    intro acc
    rw [List.foldl_cons, List.filter_cons]
    by_cases he : eligibleTab t
    · simp only [if_pos he, he, List.map_cons]
      exact ih (insertTab acc (getHostname t.url) (tsOf t))
    · simp only [if_neg he, he, Bool.false_eq_true]
      exact ih acc

/-- C4: for every input tab listing, the fresh build equals the
spec-side build: one suggestion per grouping key in first-seen order,
holding exactly the admitted tabs of that key in listing order, every
tab selected and every group flag set. -/
theorem C4_fresh_build_refines_spec (input : List CTab) :
    loadTabs input = specFreshBuild input := by
  unfold loadTabs specFreshBuild
  rw [hostAssoc_eq_insFold]
  have hpairs : ((filterTabs input).filter eligibleTab).map
      (fun t => (getHostname t.url, tsOf t)) = eligiblePairs input := rfl
  rw [hpairs]
  have hnd : (keysOf (insFold [] (eligiblePairs input))).Nodup := by
    rw [keysOf_insFold]
    exact nodup_firstSeenFrom _ _ (by simp [keysOf])
  rw [assoc_canonical _ hnd, List.map_map, keysOf_insFold]
  have hspec : specKeys input =
      firstSeenFrom (keysOf []) ((eligiblePairs input).map (fun p => p.1)) := rfl
  rw [← hspec]
  apply map_congr_mem
  intro k hk
  have hfv : findVal (insFold [] (eligiblePairs input)) k = specTabsFor input k := by
    rw [findVal_insFold]
    rfl
  simp [Function.comp, hfv]

theorem insertGrouped_sel {m : List (Int × String × List TabSummary)} {gid : Int}
    {name : String} {t : TabSummary}
    (hm : ∀ e ∈ m, ∀ u ∈ e.2.2, u.selected = true) (ht : t.selected = true) :
    ∀ e ∈ insertGrouped m gid name t, ∀ u ∈ e.2.2, u.selected = true := by
  induction m with
  | nil =>
    intro e he u hu
    simp only [insertGrouped, List.mem_singleton] at he
    subst he
    simp only [List.mem_singleton] at hu
    subst hu
    exact ht
  | cons x xs ih =>
    intro e he u hu
    simp only [insertGrouped] at he
    by_cases hk : (x.1 == gid) = true
    · simp only [if_pos hk, List.mem_cons] at he
      rcases he with he | he
      · subst he
        simp only [List.mem_append, List.mem_singleton] at hu
        rcases hu with hu | hu
        · exact hm x (by simp) u hu
        · subst hu; exact ht
      · exact hm e (by simp [he]) u hu
    · simp only [if_neg hk, List.mem_cons] at he
      rcases he with he | he
      · subst he; exact hm e (by simp) u hu
      · exact ih (fun a ha => hm a (by simp [ha])) e he u hu

theorem resyncFold_sel (l : List CTab) (st : ChromeState) :
    ∀ acc : List (Int × String × List TabSummary) × List (String × List TabSummary),
      (∀ e ∈ acc.1, ∀ u ∈ e.2.2, u.selected = true) →
      (∀ e ∈ acc.2, ∀ u ∈ e.2, u.selected = true) →
      (∀ e ∈ (l.foldl (resyncStep st) acc).1, ∀ u ∈ e.2.2, u.selected = true) ∧
      (∀ e ∈ (l.foldl (resyncStep st) acc).2, ∀ u ∈ e.2, u.selected = true) := by
  induction l with
  | nil => intro acc h1 h2; exact ⟨h1, h2⟩
  | cons t l ih =>
    intro acc h1 h2
    rw [List.foldl_cons]
    apply ih
    · intro e he
      unfold resyncStep at he
      by_cases helig : eligibleTab t
      · simp only [if_pos helig] at he
        by_cases hgid : (t.groupId == -1) = true
        · simp only [hgid] at he
          simp only [Bool.not_true, Bool.false_eq_true, if_false] at he
          exact h1 e he
        · simp only [hgid] at he
          simp only [Bool.not_false, if_true] at he
          exact insertGrouped_sel h1 rfl e he
      · simp only [if_neg helig] at he
        exact h1 e he
    · intro e he
      unfold resyncStep at he
      by_cases helig : eligibleTab t
      · simp only [if_pos helig] at he
        by_cases hgid : (t.groupId == -1) = true
        · simp only [hgid] at he
          simp only [Bool.not_true, Bool.false_eq_true, if_false] at he
          exact insertTab_sel h2 rfl e he
        · simp only [hgid] at he
          simp only [Bool.not_false, if_true] at he
          exact h2 e he
      · simp only [if_neg helig] at he
        exact h2 e he

theorem resyncBuild_sel (st : ChromeState) :
    ∀ g ∈ resyncBuild st, g.groupSelected = true ∧ ∀ t ∈ g.tabs, t.selected = true := by
  intro g hg
  unfold resyncBuild at hg
  have hfold := resyncFold_sel (filterTabs st.tabs) st ([], []) (by simp) (by simp)
  simp only [List.mem_append, List.mem_map] at hg
  rcases hg with ⟨e, he, rfl⟩ | ⟨e, he, rfl⟩
  · exact ⟨rfl, hfold.1 e he⟩
  · exact ⟨rfl, hfold.2 e he⟩

/-- C9: the model produced by the resync after a successful organize
run has every tab selected and every group flag set, whatever was
selected before the call and whatever the facility state is. -/
theorem C9_resync_all_selected (st : ChromeState) (model : List GroupSuggestion)
    (hsucc : (handleOrganizeTabs st model).2.2 = true) :
    ∀ g ∈ (handleOrganizeTabs st model).2.1,
      g.groupSelected = true ∧ ∀ t ∈ g.tabs, t.selected = true := by
  unfold handleOrganizeTabs at hsucc ⊢
  cases h : reconcileAll st model with
  | error e => rw [h] at hsucc; simp at hsucc
  | ok r =>
    obtain ⟨st2, ops⟩ := r
    exact resyncBuild_sel st2

/-- Witness for C9: a successful run over one ungrouped tab, checked
on the produced suggestion. -/
theorem C9_resync_all_selected_witness :
    (GroupSuggestion.mk "a.com" [TabSummary.mk 1 "t" "https://a.com" true] true
      (some "a.com")).groupSelected = true ∧
    (TabSummary.mk 1 "t" "https://a.com" true).selected = true :=
  have h := C9_resync_all_selected
    (ChromeState.mk [CTab.mk 1 "t" "https://a.com" (-1)] [] 5)
    (loadTabs [CTab.mk 1 "t" "https://a.com" (-1)]) (by decide)
    (GroupSuggestion.mk "a.com" [TabSummary.mk 1 "t" "https://a.com" true] true
      (some "a.com")) (by decide)
  ⟨h.1, h.2 (TabSummary.mk 1 "t" "https://a.com" true) (by decide)⟩

/-- C8: the selection model is replaced by the resync result exactly
on a successful run; a fatally failing run leaves the model exactly as
it was before the call and reports failure. -/
theorem C8_fatal_failure_preserves_model (st : ChromeState) (model : List GroupSuggestion) :
    (∀ e, reconcileAll st model = Except.error e →
      (handleOrganizeTabs st model).2.1 = model ∧
      (handleOrganizeTabs st model).2.2 = false) ∧
    (∀ r, reconcileAll st model = Except.ok r →
      (handleOrganizeTabs st model).2.1 = resyncBuild r.1 ∧
      (handleOrganizeTabs st model).2.2 = true) := by
  constructor
  · intro e he
    unfold handleOrganizeTabs
    rw [he]
    exact ⟨rfl, rfl⟩
  · intro r hr
    obtain ⟨st2, ops⟩ := r
    unfold handleOrganizeTabs
    rw [hr]
    exact ⟨rfl, rfl⟩

/-- Witness for C8: a run failing fatally on a stale selected tab
leaves the model untouched, and a successful empty run replaces it. -/
theorem C8_fatal_failure_preserves_model_witness :
    ((handleOrganizeTabs (ChromeState.mk [] [] 1)
        [GroupSuggestion.mk "a" [TabSummary.mk 99 "t" "u" true] true none]).2.1 =
      [GroupSuggestion.mk "a" [TabSummary.mk 99 "t" "u" true] true none] ∧
     (handleOrganizeTabs (ChromeState.mk [] [] 1)
        [GroupSuggestion.mk "a" [TabSummary.mk 99 "t" "u" true] true none]).2.2 = false) ∧
    ((handleOrganizeTabs (ChromeState.mk [] [] 1) []).2.1 =
      resyncBuild (ChromeState.mk [] [] 1) ∧
     (handleOrganizeTabs (ChromeState.mk [] [] 1) []).2.2 = true) :=
  ⟨(C8_fatal_failure_preserves_model (ChromeState.mk [] [] 1)
      [GroupSuggestion.mk "a" [TabSummary.mk 99 "t" "u" true] true none]).1
      (ChromeState.mk [] [] 1) (by rfl),
   (C8_fatal_failure_preserves_model (ChromeState.mk [] [] 1) []).2
      (ChromeState.mk [] [] 1, []) (by rfl)⟩

theorem find?_map_comp (l : List β) (f : β → γ) (p : γ → Bool) :
    (l.map f).find? p = (l.find? (fun b => p (f b))).map f := by
  induction l with
  | nil => rfl
  | cons x xs ih =>
    by_cases h : p (f x) = true
    · simp [List.find?, h]
    · simp [List.find?, h, ih]

theorem tabsGet_map_mask (l : List CTab) (q : Nat) (f : CTab → CTab)
    (hf : ∀ t, (f t).id = t.id) :
    (l.map f).find? (fun t => t.id == q) = (l.find? (fun t => t.id == q)).map f := by
  rw [find?_map_comp]
  have hp : (fun b : CTab => (f b).id == q) = (fun t : CTab => t.id == q) := by
    funext t
    rw [hf]
  rw [hp]

theorem mask_id (gid : Int) (tids : List Nat) :
    ∀ t : CTab, ((if tids.contains t.id then setTabGroup gid t else t)).id = t.id := by
  intro t
  by_cases h : tids.contains t.id = true
  · rw [if_pos h]; rfl
  · rw [if_neg h]

theorem mask_id_single (gid : Int) (tid : Nat) :
    ∀ t : CTab, ((if t.id == tid then setTabGroup gid t else t)).id = t.id := by
  intro t
  by_cases h : (t.id == tid) = true
  · rw [if_pos h]; rfl
  · rw [if_neg h]

theorem tabsGet_ext {st st2 : ChromeState} (h : st2.tabs = st.tabs) (q : Nat) :
    tabsGet st2 q = tabsGet st q := by
  unfold tabsGet
  rw [h]

theorem groupsGet_ext {st st2 : ChromeState} (h : st2.groups = st.groups) (gid : Int) :
    groupsGet st2 gid = groupsGet st gid := by
  unfold groupsGet
  rw [h]

theorem dead_tabsUngroup {st st2 : ChromeState} {tid q : Nat}
    (hu : tabsUngroup st tid = some st2) (h : tabsGet st q = none) : tabsGet st2 q = none := by
  unfold tabsUngroup at hu
  cases htg : tabsGet st tid with
  | none => rw [htg] at hu; cases hu
  | some tab =>
    rw [htg] at hu
    injection hu with hu
    subst hu
    unfold tabsGet at h ⊢
    simp only []
    rw [tabsGet_map_mask _ _ _ (mask_id_single (-1) tid), h]
    rfl

theorem dead_tabsAdd {st st2 : ChromeState} {gid : Int} {tids : List Nat} {q : Nat}
    (ha : tabsAddToGroup st gid tids = some st2) (h : tabsGet st q = none) :
    tabsGet st2 q = none := by
  unfold tabsAddToGroup at ha
  split at ha
  · injection ha with ha
    subst ha
    unfold tabsGet at h ⊢
    simp only []
    rw [tabsGet_map_mask _ _ _ (mask_id gid tids), h]
    rfl
  · cases ha

theorem dead_tabsCreate {st st2 : ChromeState} {tids : List Nat} {gid : Int} {q : Nat}
    (hc : tabsCreateGroup st tids = some (gid, st2)) (h : tabsGet st q = none) :
    tabsGet st2 q = none := by
  unfold tabsCreateGroup at hc
  split at hc
  · injection hc with hc
    have hsnd := congrArg Prod.snd hc
    subst hsnd
    show (st.tabs.map
      (fun t => if tids.contains t.id then setTabGroup st.nextGid t else t)).find?
        (fun t => t.id == q) = none
    unfold tabsGet at h
    rw [tabsGet_map_mask _ _ _ (mask_id st.nextGid tids), h]
    rfl
  · cases hc

theorem groupsUpdate_tabs {st st2 : ChromeState} {gid : Int} {a : GroupAttrs}
    (hu : groupsUpdate st gid a = some st2) : st2.tabs = st.tabs := by
  unfold groupsUpdate at hu
  split at hu
  · injection hu with hu
    subst hu
    rfl
  · cases hu

theorem tabsAddToGroup_groups {st st2 : ChromeState} {gid : Int} {tids : List Nat}
    (ha : tabsAddToGroup st gid tids = some st2) : st2.groups = st.groups := by
  unfold tabsAddToGroup at ha
  split at ha
  · injection ha with ha
    subst ha
    rfl
  · cases ha

theorem dead_ungroupOne (acc : ChromeState × List EOp) (tid q : Nat)
    (h : tabsGet acc.1 q = none) : tabsGet (ungroupOne acc tid).1 q = none := by
  unfold ungroupOne
  cases htg : tabsGet acc.1 tid with
  | none => exact h
  | some tab =>
    simp only []
    split
    · exact h
    · cases hu : tabsUngroup acc.1 tid with
      | some st2 => exact dead_tabsUngroup hu h
      | none => exact h

theorem dead_ungroupFold (tids : List Nat) :
    ∀ (acc : ChromeState × List EOp) (q : Nat), tabsGet acc.1 q = none →
      tabsGet ((tids.foldl ungroupOne acc)).1 q = none := by
  induction tids with
  | nil => intro acc q h; exact h
  | cons t ts ih =>
    intro acc q h
    rw [List.foldl_cons]
    exact ih _ q (dead_ungroupOne acc t q h)

theorem ungroupOne_groups (acc : ChromeState × List EOp) (tid : Nat) :
    (ungroupOne acc tid).1.groups = acc.1.groups ∧
    (ungroupOne acc tid).1.nextGid = acc.1.nextGid := by
  unfold ungroupOne
  cases htg : tabsGet acc.1 tid with
  | none => exact ⟨rfl, rfl⟩
  | some tab =>
    simp only []
    split
    · exact ⟨rfl, rfl⟩
    · cases hu : tabsUngroup acc.1 tid with
      | some st2 =>
        unfold tabsUngroup at hu
        rw [htg] at hu
        injection hu with hu
        subst hu
        exact ⟨rfl, rfl⟩
      | none => exact ⟨rfl, rfl⟩

theorem ungroupFold_pres (tids : List Nat) :
    ∀ acc : ChromeState × List EOp,
      (tids.foldl ungroupOne acc).1.groups = acc.1.groups ∧
      (tids.foldl ungroupOne acc).1.nextGid = acc.1.nextGid := by
  induction tids with
  | nil => intro acc; exact ⟨rfl, rfl⟩
  | cons t ts ih =>
    intro acc
    rw [List.foldl_cons]
    have h1 := ungroupOne_groups acc t
    have h2 := ih (ungroupOne acc t)
    exact ⟨h2.1.trans h1.1, h2.2.trans h1.2⟩

theorem ungroupOne_ops (acc : ChromeState × List EOp) (tid : Nat)
    (h : ∀ op ∈ acc.2, isUngroupOp op = true) :
    ∀ op ∈ (ungroupOne acc tid).2, isUngroupOp op = true := by
  unfold ungroupOne
  cases htg : tabsGet acc.1 tid with
  | none => exact h
  | some tab =>
    simp only []
    split
    · exact h
    · cases hu : tabsUngroup acc.1 tid with
      | some st2 =>
        intro op hop
        simp only [List.mem_append, List.mem_singleton] at hop
        rcases hop with hop | hop
        · exact h op hop
        · subst hop; rfl
      | none => exact h

theorem ungroupFold_ops (tids : List Nat) :
    ∀ acc : ChromeState × List EOp, (∀ op ∈ acc.2, isUngroupOp op = true) →
      ∀ op ∈ (tids.foldl ungroupOne acc).2, isUngroupOp op = true := by
  induction tids with
  | nil => intro acc h; exact h
  | cons t ts ih =>
    intro acc h
    rw [List.foldl_cons]
    exact ih _ (ungroupOne_ops acc t h)

theorem reconcileOne_cases {st : ChromeState} {g : GroupSuggestion} {st2 : ChromeState}
    {ops : List EOp} (hr : reconcileOne st g = Except.ok (st2, ops)) :
    st2 = (ungroupPhase st (unselectedIdsOf g)).1 ∨
    (∃ gid a, groupsUpdate (ungroupPhase st (unselectedIdsOf g)).1 gid a = some st2) ∨
    (∃ gid a stA tids2,
      tabsAddToGroup (ungroupPhase st (unselectedIdsOf g)).1 gid tids2 = some stA ∧
      groupsUpdate stA gid a = some st2) ∨
    (∃ gidc a stC,
      tabsCreateGroup (ungroupPhase st (unselectedIdsOf g)).1 (selectedIdsOf g) = some (gidc, stC) ∧
      groupsUpdate stC gidc a = some st2) := by
  unfold reconcileOne at hr
  simp only [] at hr
  split at hr
  · injection hr with hr
    exact Or.inl (congrArg Prod.fst hr).symm
  · split at hr
    · split at hr
      · split at hr
        · injection hr with hr
          rename_i h1 x1 gid c hfe h2 x2 st3 hupd
          have hst : st3 = st2 := congrArg Prod.fst hr
          exact Or.inr (Or.inl ⟨gid, _, hst ▸ hupd⟩)
        · cases hr
      · split at hr
        · cases hr
        · split at hr
          · injection hr with hr
            rename_i h1 x1 gid c hfe h2 x2 stA hadd x3 st3 hupd
            have hst : st3 = st2 := congrArg Prod.fst hr
            exact Or.inr (Or.inr (Or.inl ⟨gid, _, stA, _, hadd, hst ▸ hupd⟩))
          · cases hr
    · split at hr
      · cases hr
      · split at hr
        · injection hr with hr
          rename_i h1 x1 c hfe x2 gidc stC hcr x3 st3 hupd
          have hst : st3 = st2 := congrArg Prod.fst hr
          exact Or.inr (Or.inr (Or.inr ⟨gidc, _, stC, hcr, hst ▸ hupd⟩))
        · cases hr

theorem dead_reconcileOne {st : ChromeState} {g : GroupSuggestion} {st2 : ChromeState}
    {ops : List EOp} {q : Nat} (h : tabsGet st q = none)
    (hr : reconcileOne st g = Except.ok (st2, ops)) : tabsGet st2 q = none := by
  have hdead1 : tabsGet (ungroupPhase st (unselectedIdsOf g)).1 q = none :=
    dead_ungroupFold _ (st, []) q h
  rcases reconcileOne_cases hr with h1 | ⟨gid, a, hupd⟩ |
    ⟨gid, a, stA, tids2, hadd, hupd⟩ | ⟨gidc, a, stC, hcr, hupd⟩
  · rw [h1]; exact hdead1
  · rw [tabsGet_ext (groupsUpdate_tabs hupd) q]; exact hdead1
  · rw [tabsGet_ext (groupsUpdate_tabs hupd) q]; exact dead_tabsAdd hadd hdead1
  · rw [tabsGet_ext (groupsUpdate_tabs hupd) q]; exact dead_tabsCreate hcr hdead1

theorem ungroupFold_skip (pre : List Nat) (tid : Nat) (post : List Nat) :
    ∀ acc : ChromeState × List EOp, tabsGet acc.1 tid = none →
      (pre ++ tid :: post).foldl ungroupOne acc = (pre ++ post).foldl ungroupOne acc := by
  induction pre with
  | nil =>
    intro acc h
    simp only [List.nil_append, List.foldl_cons]
    have hskip : ungroupOne acc tid = acc := by
      unfold ungroupOne
      rw [h]
    rw [hskip]
  | cons p ps ih =>
    intro acc h
    simp only [List.cons_append, List.foldl_cons]
    exact ih _ (dead_ungroupOne acc p tid h)

theorem reconcileOne_skip (st : ChromeState) (g : GroupSuggestion) (pre post : List TabSummary)
    (t : TabSummary) (hg : g.tabs = pre ++ t :: post) (ht : t.selected = false)
    (hdead : tabsGet st t.id = none) :
    reconcileOne st g = reconcileOne st { g with tabs := pre ++ post } := by
  have hsel : selectedIdsOf g = selectedIdsOf { g with tabs := pre ++ post } := by
    simp [selectedIdsOf, hg, List.filter_append, List.filter_cons, ht]
  have hunsel : unselectedIdsOf g =
      (pre.filter (fun u => !u.selected)).map (fun u => u.id) ++ t.id ::
      (post.filter (fun u => !u.selected)).map (fun u => u.id) := by
    simp [unselectedIdsOf, hg, List.filter_append, List.filter_cons, ht]
  have hunsel2 : unselectedIdsOf { g with tabs := pre ++ post } =
      (pre.filter (fun u => !u.selected)).map (fun u => u.id) ++
      (post.filter (fun u => !u.selected)).map (fun u => u.id) := by
    simp [unselectedIdsOf, List.filter_append]
  have hphase : ungroupPhase st (unselectedIdsOf g) =
      ungroupPhase st (unselectedIdsOf { g with tabs := pre ++ post }) := by
    rw [hunsel, hunsel2]
    exact ungroupFold_skip _ _ _ (st, []) hdead
  have htitle : groupTitle g = groupTitle { g with tabs := pre ++ post } := rfl
  unfold reconcileOne
  rw [hsel, hphase, htitle]

/-- C7: a NotFound failure on an individual unselected tab (the tab no
longer exists in the facility) is caught and that tab skipped; the
reconciliation of the remaining tabs of its group and of all other
groups is exactly as if the dead tab were absent. -/
theorem C7_dead_unselected_tab_skipped (st : ChromeState) (gs1 gs2 : List GroupSuggestion)
    (g : GroupSuggestion) (pre post : List TabSummary) (t : TabSummary)
    (hg : g.tabs = pre ++ t :: post) (ht : t.selected = false)
    (hdead : tabsGet st t.id = none) :
    reconcileAll st (gs1 ++ g :: gs2) =
      reconcileAll st (gs1 ++ { g with tabs := pre ++ post } :: gs2) := by
  induction gs1 generalizing st hdead with
  | nil =>
    simp only [List.nil_append]
    unfold reconcileAll
    rw [reconcileOne_skip st g pre post t hg ht hdead]
  | cons g0 gs1 ih =>
    simp only [List.cons_append]
    unfold reconcileAll
    cases h0 : reconcileOne st g0 with
    | error e => rfl
    | ok r =>
      obtain ⟨st1, ops1⟩ := r
      simp only []
      rw [ih st1 (dead_reconcileOne hdead h0)]

/-- Witness for C7: a two-tab suggestion whose unselected tab is no
longer open reconciles exactly like the suggestion without it. -/
theorem C7_dead_unselected_tab_skipped_witness :
    reconcileAll
      (ChromeState.mk [CTab.mk 1 "t" "https://a.com" 5] [(5, GroupAttrs.mk "a" "" false)] 9)
      [GroupSuggestion.mk "a"
        [TabSummary.mk 7 "gone" "u" false, TabSummary.mk 1 "t" "https://a.com" true] false none] =
    reconcileAll
      (ChromeState.mk [CTab.mk 1 "t" "https://a.com" 5] [(5, GroupAttrs.mk "a" "" false)] 9)
      [GroupSuggestion.mk "a" [TabSummary.mk 1 "t" "https://a.com" true] false none] :=
  C7_dead_unselected_tab_skipped
    (ChromeState.mk [CTab.mk 1 "t" "https://a.com" 5] [(5, GroupAttrs.mk "a" "" false)] 9)
    [] []
    (GroupSuggestion.mk "a"
      [TabSummary.mk 7 "gone" "u" false, TabSummary.mk 1 "t" "https://a.com" true] false none)
    [] [TabSummary.mk 1 "t" "https://a.com" true] (TabSummary.mk 7 "gone" "u" false)
    (by rfl) (by rfl) (by rfl)

theorem findExisting_some_char (st : ChromeState) (tids : List Nat) :
    ∀ (acc : Option Int) (col : Bool) (gid : Int) (c : Bool),
      findExisting st tids acc col = (some gid, c) →
      ((groupsGet st gid).map (fun a => a.collapsed) = some c) ∨
      (groupsGet st gid = none ∧ c = col) ∨
      (acc = some gid ∧ c = col) := by
  induction tids with
  | nil =>
    intro acc col gid c h
    unfold findExisting at h
    have h1 : acc = some gid := congrArg Prod.fst h
    have h2 : col = c := congrArg Prod.snd h
    exact Or.inr (Or.inr ⟨h1, h2.symm⟩)
  | cons tid rest ih =>
    intro acc col gid c h
    unfold findExisting at h
    cases htg : tabsGet st tid with
    | none =>
      rw [htg] at h
      exact ih _ _ _ _ h
    | some tab =>
      rw [htg] at h
      simp only [] at h
      by_cases hgid : (tab.groupId == -1) = true
      · rw [if_pos hgid] at h
        exact ih _ _ _ _ h
      · rw [if_neg hgid] at h
        cases hgg : groupsGet st tab.groupId with
        | some gi =>
          rw [hgg] at h
          have h1 : some tab.groupId = some gid := congrArg Prod.fst h
          have h2 : gi.collapsed = c := congrArg Prod.snd h
          injection h1 with h1
          subst h1
          left
          rw [hgg, ← h2]
          rfl
        | none =>
          rw [hgg] at h
          rcases ih _ _ _ _ h with h1 | h2 | h3
          · exact Or.inl h1
          · exact Or.inr (Or.inl h2)
          · obtain ⟨h3a, h3b⟩ := h3
            injection h3a with h3a
            subst h3a
            exact Or.inr (Or.inl ⟨hgg, h3b⟩)

theorem findExisting_none_col (st : ChromeState) (tids : List Nat) :
    ∀ (acc : Option Int) (col : Bool) (c : Bool),
      findExisting st tids acc col = (none, c) → c = col := by
  induction tids with
  | nil =>
    intro acc col c h
    unfold findExisting at h
    exact (congrArg Prod.snd h).symm
  | cons tid rest ih =>
    intro acc col c h
    unfold findExisting at h
    cases htg : tabsGet st tid with
    | none =>
      rw [htg] at h
      exact ih _ _ _ h
    | some tab =>
      rw [htg] at h
      simp only [] at h
      by_cases hgid : (tab.groupId == -1) = true
      · rw [if_pos hgid] at h
        exact ih _ _ _ h
      · rw [if_neg hgid] at h
        cases hgg : groupsGet st tab.groupId with
        | some gi =>
          rw [hgg] at h
          cases congrArg Prod.fst h
        | none =>
          rw [hgg] at h
          exact ih _ _ _ h

theorem groupsUpdate_isSome {st st2 : ChromeState} {gid : Int} {a : GroupAttrs}
    (hu : groupsUpdate st gid a = some st2) : (groupsGet st gid).isSome = true := by
  unfold groupsUpdate at hu
  split at hu
  · rename_i hsome
    exact hsome
  · cases hu

theorem groupsUpdate_get {st st2 : ChromeState} {gid : Int} {a : GroupAttrs}
    (hu : groupsUpdate st gid a = some st2) : groupsGet st2 gid = some a := by
  have hsome := groupsUpdate_isSome hu
  have hst : st2 = { st with
      groups := st.groups.map (fun e => if e.1 == gid then (e.1, a) else e) } := by
    unfold groupsUpdate at hu
    rw [if_pos hsome] at hu
    exact (Option.some.inj hu).symm
  subst hst
  unfold groupsGet at hsome ⊢
  simp only []
  rw [find?_map_comp]
  have hp : (fun e : Int × GroupAttrs => (if e.1 == gid then (e.1, a) else e).1 == gid) =
      (fun e : Int × GroupAttrs => e.1 == gid) := by
    funext e
    by_cases he : (e.1 == gid) = true
    · rw [if_pos he]
    · rw [if_neg he]
  rw [hp]
  cases hfind : st.groups.find? (fun e => e.1 == gid) with
  | none =>
    rw [hfind] at hsome
    simp at hsome
  | some e0 =>
    have he0 : e0.1 = gid := by
      have := List.find?_some hfind
      simpa using this
    simp [he0]

theorem tabsCreateGroup_fst {st st2 : ChromeState} {tids : List Nat} {gid : Int}
    (hc : tabsCreateGroup st tids = some (gid, st2)) : gid = st.nextGid := by
  unfold tabsCreateGroup at hc
  split at hc
  · injection hc with hc
    exact (congrArg Prod.fst hc).symm
  · cases hc

theorem reconcileOne_adopt_inv {st : ChromeState} {g : GroupSuggestion} {st2 : ChromeState}
    {ops : List EOp} {gid : Int} {c : Bool} (hne : selectedIdsOf g ≠ [])
    (hfe : findExisting (ungroupPhase st (unselectedIdsOf g)).1 (selectedIdsOf g) none false =
      (some gid, c))
    (hr : reconcileOne st g = Except.ok (st2, ops)) :
    (((selectedIdsOf g).filter (fun i =>
        !(((tabsQueryGroup (ungroupPhase st (unselectedIdsOf g)).1 gid).map
          (fun t => t.id)).contains i))).isEmpty = true ∧
      groupsUpdate (ungroupPhase st (unselectedIdsOf g)).1 gid
        { title := groupTitle g, color := "grey", collapsed := c } = some st2 ∧
      ops = (ungroupPhase st (unselectedIdsOf g)).2 ++ [EOp.update gid (groupTitle g) c]) ∨
    (((selectedIdsOf g).filter (fun i =>
        !(((tabsQueryGroup (ungroupPhase st (unselectedIdsOf g)).1 gid).map
          (fun t => t.id)).contains i))).isEmpty = false ∧
      ∃ stA,
        tabsAddToGroup (ungroupPhase st (unselectedIdsOf g)).1 gid
          ((selectedIdsOf g).filter (fun i =>
            !(((tabsQueryGroup (ungroupPhase st (unselectedIdsOf g)).1 gid).map
              (fun t => t.id)).contains i))) = some stA ∧
        groupsUpdate stA gid
          { title := groupTitle g, color := "grey", collapsed := c } = some st2 ∧
        ops = (ungroupPhase st (unselectedIdsOf g)).2 ++
          [EOp.add gid ((selectedIdsOf g).filter (fun i =>
            !(((tabsQueryGroup (ungroupPhase st (unselectedIdsOf g)).1 gid).map
              (fun t => t.id)).contains i))),
           EOp.update gid (groupTitle g) c]) := by
  have hiso : ¬ (selectedIdsOf g).isEmpty = true := by
    simp [List.isEmpty_iff, hne]
  unfold reconcileOne at hr
  simp only [] at hr
  rw [if_neg hiso, hfe] at hr
  simp only [] at hr
  split at hr
  · rename_i hta
    split at hr
    · rename_i x st3 hupd
      injection hr with hr
      have h1 : st3 = st2 := congrArg Prod.fst hr
      have h2 := congrArg Prod.snd hr
      subst h1
      exact Or.inl ⟨hta, hupd, h2.symm⟩
    · cases hr
  · rename_i hta
    have hta2 : ((selectedIdsOf g).filter (fun i =>
        !(((tabsQueryGroup (ungroupPhase st (unselectedIdsOf g)).1 gid).map
          (fun t => t.id)).contains i))).isEmpty = false := by
      simpa using hta
    split at hr
    · cases hr
    · rename_i stA hadd
      split at hr
      · rename_i x st3 hupd
        injection hr with hr
        have h1 : st3 = st2 := congrArg Prod.fst hr
        have h2 := congrArg Prod.snd hr
        subst h1
        exact Or.inr ⟨hta2, stA, hadd, hupd, h2.symm⟩
      · cases hr

theorem reconcileOne_create_inv {st : ChromeState} {g : GroupSuggestion} {st2 : ChromeState}
    {ops : List EOp} {c : Bool} (hne : selectedIdsOf g ≠ [])
    (hfe : findExisting (ungroupPhase st (unselectedIdsOf g)).1 (selectedIdsOf g) none false =
      (none, c))
    (hr : reconcileOne st g = Except.ok (st2, ops)) :
    ∃ stC,
      tabsCreateGroup (ungroupPhase st (unselectedIdsOf g)).1 (selectedIdsOf g) =
        some ((ungroupPhase st (unselectedIdsOf g)).1.nextGid, stC) ∧
      groupsUpdate stC (ungroupPhase st (unselectedIdsOf g)).1.nextGid
        { title := groupTitle g, color := "grey", collapsed := c } = some st2 ∧
      ops = (ungroupPhase st (unselectedIdsOf g)).2 ++
        [EOp.create (selectedIdsOf g) (ungroupPhase st (unselectedIdsOf g)).1.nextGid,
         EOp.update (ungroupPhase st (unselectedIdsOf g)).1.nextGid (groupTitle g) c] := by
  have hiso : ¬ (selectedIdsOf g).isEmpty = true := by
    simp [List.isEmpty_iff, hne]
  unfold reconcileOne at hr
  simp only [] at hr
  rw [if_neg hiso, hfe] at hr
  simp only [] at hr
  split at hr
  · cases hr
  · rename_i x gidc stC hcr
    have hg : gidc = (ungroupPhase st (unselectedIdsOf g)).1.nextGid := tabsCreateGroup_fst hcr
    subst hg
    split at hr
    · rename_i y st3 hupd
      injection hr with hr
      have h1 : st3 = st2 := congrArg Prod.fst hr
      have h2 := congrArg Prod.snd hr
      subst h1
      exact ⟨stC, hcr, hupd, h2.symm⟩
    · cases hr

theorem tabsCreate_membership {st : ChromeState} {tids : List Nat} {gid : Int}
    {st2 : ChromeState} (hc : tabsCreateGroup st tids = some (gid, st2)) :
    ∀ tid ∈ tids, (tabsGet st2 tid).map (fun u => u.groupId) = some st.nextGid := by
  unfold tabsCreateGroup at hc
  split at hc
  · rename_i hguard
    injection hc with hc
    have hsnd := congrArg Prod.snd hc
    subst hsnd
    intro tid htid
    have hall := ((Bool.and_eq_true _ _).mp hguard).2
    rw [List.all_eq_true] at hall
    have hguard2 : (tabsGet st tid).isSome = true := hall tid htid
    obtain ⟨t0, ht0⟩ := Option.isSome_iff_exists.mp hguard2
    show ((st.tabs.map
        (fun u => if tids.contains u.id then setTabGroup st.nextGid u else u)).find?
      (fun u => u.id == tid)).map (fun u => u.groupId) = some st.nextGid
    rw [tabsGet_map_mask _ _ _ (mask_id st.nextGid tids)]
    unfold tabsGet at ht0
    rw [ht0]
    have hid : t0.id = tid := by
      have := List.find?_some ht0
      simpa using this
    have hcont : tids.contains t0.id = true := by
      rw [hid]
      simpa using htid
    have hmem0 : t0.id ∈ tids := by
      rw [hid]
      exact htid
    simp [hcont, hmem0, setTabGroup]
  · cases hc

/-- C5: per suggestion, the reconciliation issues (after the ungroup
loop for unselected tabs) no group creation or update when no tab is
selected; when the scan over the selected ids finds a tab already in
an external group, that group is adopted and exactly the selected ids
not already among its members are added before the single update, with
no creation; and when no selected tab is grouped, a fresh group is
created over exactly the selected ids, to which every selected tab
then belongs. -/
theorem C5_reconcile_per_suggestion (st : ChromeState) (g : GroupSuggestion) :
    (selectedIdsOf g = [] →
      reconcileOne st g = Except.ok (ungroupPhase st (unselectedIdsOf g)) ∧
      (ungroupPhase st (unselectedIdsOf g)).1.groups = st.groups ∧
      (ungroupPhase st (unselectedIdsOf g)).1.nextGid = st.nextGid ∧
      ∀ op ∈ (ungroupPhase st (unselectedIdsOf g)).2, isUngroupOp op = true) ∧
    (∀ gid c st2 ops, selectedIdsOf g ≠ [] →
      findExisting (ungroupPhase st (unselectedIdsOf g)).1 (selectedIdsOf g) none false =
        (some gid, c) →
      reconcileOne st g = Except.ok (st2, ops) →
      (ops = (ungroupPhase st (unselectedIdsOf g)).2 ++
        (if ((selectedIdsOf g).filter (fun i =>
            !(((tabsQueryGroup (ungroupPhase st (unselectedIdsOf g)).1 gid).map
              (fun t => t.id)).contains i))).isEmpty
         then [EOp.update gid (groupTitle g) c]
         else [EOp.add gid ((selectedIdsOf g).filter (fun i =>
            !(((tabsQueryGroup (ungroupPhase st (unselectedIdsOf g)).1 gid).map
              (fun t => t.id)).contains i))),
           EOp.update gid (groupTitle g) c])) ∧
      (∀ tids2 gid2, EOp.create tids2 gid2 ∉ ops)) ∧
    (∀ c st2 ops, selectedIdsOf g ≠ [] →
      findExisting (ungroupPhase st (unselectedIdsOf g)).1 (selectedIdsOf g) none false =
        (none, c) →
      reconcileOne st g = Except.ok (st2, ops) →
      ops = (ungroupPhase st (unselectedIdsOf g)).2 ++
        [EOp.create (selectedIdsOf g) (ungroupPhase st (unselectedIdsOf g)).1.nextGid,
         EOp.update (ungroupPhase st (unselectedIdsOf g)).1.nextGid (groupTitle g) c] ∧
      ∀ tid ∈ selectedIdsOf g, (tabsGet st2 tid).map (fun u => u.groupId) =
        some (ungroupPhase st (unselectedIdsOf g)).1.nextGid) := by
  refine ⟨?_, ?_, ?_⟩
  · intro hempty
    have hiso : (selectedIdsOf g).isEmpty = true := by
      rw [hempty]
      rfl
    refine ⟨?_, (ungroupFold_pres _ _).1, (ungroupFold_pres _ _).2, ?_⟩
    · unfold reconcileOne
      simp only []
      rw [if_pos hiso]
    · exact ungroupFold_ops _ _ (by intro op hop; simp at hop)
  · intro gid c st2 ops hne hfe hr
    rcases reconcileOne_adopt_inv hne hfe hr with ⟨hta, hupd, hops⟩ | ⟨hta, stA, hadd, hupd, hops⟩
    · constructor
      · rw [hops, hta]
        simp
      · intro tids2 gid2 hmem
        rw [hops] at hmem
        rcases List.mem_append.mp hmem with hmem | hmem
        · have := ungroupFold_ops (unselectedIdsOf g) (st, [])
            (by intro op hop; simp at hop) _ hmem
          simp [isUngroupOp] at this
        · simp at hmem
    · constructor
      · rw [hops, hta]
        simp
      · intro tids2 gid2 hmem
        rw [hops] at hmem
        rcases List.mem_append.mp hmem with hmem | hmem
        · have := ungroupFold_ops (unselectedIdsOf g) (st, [])
            (by intro op hop; simp at hop) _ hmem
          simp [isUngroupOp] at this
        · simp at hmem
  · intro c st2 ops hne hfe hr
    rcases reconcileOne_create_inv hne hfe hr with ⟨stC, hcr, hupd, hops⟩
    refine ⟨hops, ?_⟩
    intro tid htid
    have hmem := tabsCreate_membership hcr tid htid
    have htabs : st2.tabs = stC.tabs := groupsUpdate_tabs hupd
    rw [show tabsGet st2 tid = tabsGet stC tid from tabsGet_ext htabs tid]
    exact hmem

/-- Witness for C5: a suggestion with no selected tab reconciles to
exactly the ungroup phase, with the facility's group list and next
identifier untouched. -/
theorem C5_reconcile_per_suggestion_witness :
    reconcileOne (ChromeState.mk [CTab.mk 1 "t" "u" 5] [(5, GroupAttrs.mk "a" "" false)] 9)
      (GroupSuggestion.mk "a" [TabSummary.mk 1 "t" "u" false] false none) =
      Except.ok (ungroupPhase
        (ChromeState.mk [CTab.mk 1 "t" "u" 5] [(5, GroupAttrs.mk "a" "" false)] 9)
        (unselectedIdsOf (GroupSuggestion.mk "a" [TabSummary.mk 1 "t" "u" false] false none))) ∧
    (ungroupPhase (ChromeState.mk [CTab.mk 1 "t" "u" 5] [(5, GroupAttrs.mk "a" "" false)] 9)
      (unselectedIdsOf
        (GroupSuggestion.mk "a" [TabSummary.mk 1 "t" "u" false] false none))).1.groups =
      (ChromeState.mk [CTab.mk 1 "t" "u" 5] [(5, GroupAttrs.mk "a" "" false)] 9).groups :=
  have h := (C5_reconcile_per_suggestion
    (ChromeState.mk [CTab.mk 1 "t" "u" 5] [(5, GroupAttrs.mk "a" "" false)] 9)
    (GroupSuggestion.mk "a" [TabSummary.mk 1 "t" "u" false] false none)).1 (by rfl)
  ⟨h.1, h.2.1⟩

/-- C6: reconciliation preserves the collapsed attribute.  When an
existing external group is adopted, the collapsed value captured at
adoption equals the group's pre-call value and is written back by the
update, and a freshly created group is updated with collapsed false;
in the spec's two-group scenario the collapsed group stays collapsed,
the expanded one stays expanded, the ungrouped tab joins the existing
group and no new group is created. -/
theorem C6_collapsed_attribute_preserved (st : ChromeState) (g : GroupSuggestion) :
    (∀ gid c st2 ops, selectedIdsOf g ≠ [] →
      findExisting (ungroupPhase st (unselectedIdsOf g)).1 (selectedIdsOf g) none false =
        (some gid, c) →
      reconcileOne st g = Except.ok (st2, ops) →
      groupsGet st2 gid = some { title := groupTitle g, color := "grey", collapsed := c } ∧
      (groupsGet st gid).map (fun a => a.collapsed) = some c) ∧
    (∀ c st2 ops, selectedIdsOf g ≠ [] →
      findExisting (ungroupPhase st (unselectedIdsOf g)).1 (selectedIdsOf g) none false =
        (none, c) →
      reconcileOne st g = Except.ok (st2, ops) →
      c = false ∧
      groupsGet st2 (ungroupPhase st (unselectedIdsOf g)).1.nextGid =
        some { title := groupTitle g, color := "grey", collapsed := false }) ∧
    ((groupsGet (handleOrganizeTabs
        (ChromeState.mk
          [CTab.mk 1 "t1" "https://a.com/1" 10, CTab.mk 2 "t2" "https://b.com/2" 20,
           CTab.mk 3 "t3" "https://a.com/3" (-1)]
          [(10, GroupAttrs.mk "a.com" "grey" true), (20, GroupAttrs.mk "b.com" "grey" false)] 30)
        (loadTabs
          [CTab.mk 1 "t1" "https://a.com/1" 10, CTab.mk 2 "t2" "https://b.com/2" 20,
           CTab.mk 3 "t3" "https://a.com/3" (-1)])).1 10).map (fun a => a.collapsed) =
        some true ∧
     (groupsGet (handleOrganizeTabs
        (ChromeState.mk
          [CTab.mk 1 "t1" "https://a.com/1" 10, CTab.mk 2 "t2" "https://b.com/2" 20,
           CTab.mk 3 "t3" "https://a.com/3" (-1)]
          [(10, GroupAttrs.mk "a.com" "grey" true), (20, GroupAttrs.mk "b.com" "grey" false)] 30)
        (loadTabs
          [CTab.mk 1 "t1" "https://a.com/1" 10, CTab.mk 2 "t2" "https://b.com/2" 20,
           CTab.mk 3 "t3" "https://a.com/3" (-1)])).1 20).map (fun a => a.collapsed) =
        some false ∧
     (tabsGet (handleOrganizeTabs
        (ChromeState.mk
          [CTab.mk 1 "t1" "https://a.com/1" 10, CTab.mk 2 "t2" "https://b.com/2" 20,
           CTab.mk 3 "t3" "https://a.com/3" (-1)]
          [(10, GroupAttrs.mk "a.com" "grey" true), (20, GroupAttrs.mk "b.com" "grey" false)] 30)
        (loadTabs
          [CTab.mk 1 "t1" "https://a.com/1" 10, CTab.mk 2 "t2" "https://b.com/2" 20,
           CTab.mk 3 "t3" "https://a.com/3" (-1)])).1 3).map (fun u => u.groupId) = some 10 ∧
     (handleOrganizeTabs
        (ChromeState.mk
          [CTab.mk 1 "t1" "https://a.com/1" 10, CTab.mk 2 "t2" "https://b.com/2" 20,
           CTab.mk 3 "t3" "https://a.com/3" (-1)]
          [(10, GroupAttrs.mk "a.com" "grey" true), (20, GroupAttrs.mk "b.com" "grey" false)] 30)
        (loadTabs
          [CTab.mk 1 "t1" "https://a.com/1" 10, CTab.mk 2 "t2" "https://b.com/2" 20,
           CTab.mk 3 "t3" "https://a.com/3" (-1)])).1.nextGid = 30) := by
  refine ⟨?_, ?_, by rfl, by rfl, by rfl, by rfl⟩
  · intro gid c st2 ops hne hfe hr
    rcases reconcileOne_adopt_inv hne hfe hr with ⟨hta, hupd, hops⟩ | ⟨hta, stA, hadd, hupd, hops⟩
    · have hget := groupsUpdate_get hupd
      have hsome := groupsUpdate_isSome hupd
      rcases findExisting_some_char _ _ _ _ _ _ hfe with h1 | ⟨h2a, h2b⟩ | ⟨h3a, h3b⟩
      · have hpre : groupsGet (ungroupPhase st (unselectedIdsOf g)).1 gid = groupsGet st gid :=
          groupsGet_ext (ungroupFold_pres _ _).1 gid
        rw [hpre] at h1
        exact ⟨hget, h1⟩
      · rw [h2a] at hsome
        simp at hsome
      · cases h3a
    · have hget := groupsUpdate_get hupd
      have hsomeA := groupsUpdate_isSome hupd
      have hsome : (groupsGet (ungroupPhase st (unselectedIdsOf g)).1 gid).isSome = true := by
        rw [← groupsGet_ext (tabsAddToGroup_groups hadd) gid]
        exact hsomeA
      rcases findExisting_some_char _ _ _ _ _ _ hfe with h1 | ⟨h2a, h2b⟩ | ⟨h3a, h3b⟩
      · have hpre : groupsGet (ungroupPhase st (unselectedIdsOf g)).1 gid = groupsGet st gid :=
          groupsGet_ext (ungroupFold_pres _ _).1 gid
        rw [hpre] at h1
        exact ⟨hget, h1⟩
      · rw [h2a] at hsome
        simp at hsome
      · cases h3a
  · intro c st2 ops hne hfe hr
    have hc0 : c = false := findExisting_none_col _ _ _ _ _ hfe
    subst hc0
    rcases reconcileOne_create_inv hne hfe hr with ⟨stC, hcr, hupd, hops⟩
    exact ⟨rfl, groupsUpdate_get hupd⟩

/-- Witness for C6: adopting a collapsed pre-existing group writes the
collapsed attribute back unchanged. -/
theorem C6_collapsed_attribute_preserved_witness :
    groupsGet (ChromeState.mk [CTab.mk 1 "t" "u" 10] [(10, GroupAttrs.mk "a" "grey" true)] 20) 10 =
      some (GroupAttrs.mk "a" "grey" true) ∧
    (groupsGet (ChromeState.mk [CTab.mk 1 "t" "u" 10] [(10, GroupAttrs.mk "x" "" true)] 20)
      10).map (fun a => a.collapsed) = some true :=
  (C6_collapsed_attribute_preserved
    (ChromeState.mk [CTab.mk 1 "t" "u" 10] [(10, GroupAttrs.mk "x" "" true)] 20)
    (GroupSuggestion.mk "a" [TabSummary.mk 1 "t" "u" true] true none)).1 10 true
    (ChromeState.mk [CTab.mk 1 "t" "u" 10] [(10, GroupAttrs.mk "a" "grey" true)] 20)
    [EOp.update 10 "a" true] (by decide) (by rfl) (by rfl)
